import Mathlib

/-!
Verification development for the BV-BRC TreeSort runner
(`scripts/run_treesort.py` and `scripts/treesortrunner/treesortrunner.py`).

The development shallowly embeds the job-data validation pipeline
(`TreeSortRunner.is_job_data_valid`), the command planners
(`tree_sort`, `run_prepare_dataset`), the FASTA-header sanitization pass
(`treesortrunner.py, prepare_input_file`), and the per-segment FASTA
splitter (`split_fasta_by_segment`).

Modelling conventions:
* Python strings are Lean `String`s; where character-level reasoning is
  needed (sanitization), text is a `List Char` and a file is its raw
  character stream, split into newline-terminated lines exactly the way
  Python's line iteration does (each yielded line keeps its trailing
  newline; the final line may lack one).  Carriage-return translation of
  Python's universal-newline mode is not modelled; the embedding covers
  byte streams whose only line separator is the newline character.
* Python's `str.strip()` is modelled over the ASCII whitespace characters
  (space, tab, newline, carriage return, vertical tab, form feed).
* Fields of the job record that Python may receive as JSON `null` are
  `Option String`; Python truthiness of such a field is `pyTruthy`.
* Raised-and-caught validation exceptions are the `VErr` values threaded
  through `validateRun`; the in-place mutation of `self.job_data` is the
  `JobData` component of its result.
-/

/-- ASCII whitespace, as stripped by Python's `str.strip()`. -/
def isPyWS (c : Char) : Bool :=
  c == ' ' || c == '\t' || c == '\n' || c == '\x0d' || c == '\x0b' || c == '\x0c'

/-- Drop trailing characters satisfying `p` (right-hand `dropWhile`). -/
def rdropWhileL (p : Char → Bool) (l : List Char) : List Char :=
  (l.reverse.dropWhile p).reverse

/-- Python `str.strip()` over the character list: remove leading and
trailing whitespace. -/
def pyStrip (l : List Char) : List Char :=
  rdropWhileL isPyWS (l.dropWhile isPyWS)

/-- `str.strip()` on a `String`. -/
def pyStripS (s : String) : String :=
  String.mk (pyStrip s.toList)

/-- Does the character list start with the pattern `pat` (first
argument)? -/
def startsWithL : List Char → List Char → Bool
  | [], _ => true
  | _ :: _, [] => false
  | p :: ps, c :: cs => p == c && startsWithL ps cs

/-- Python's `s.startswith(p)`. -/
def pyStartsWith (s p : String) : Bool :=
  startsWithL p.toList s.toList

/-- The characters of `INVALID_FASTA_CHARS` in
`treesortrunner/common.py`: the regex class
left bracket, apostrophe, double quote, parentheses, comma, semicolon,
pipe, colon, right bracket. -/
def invalidChar (c : Char) : Bool :=
  c == '[' || c == Char.ofNat 39 || c == Char.ofNat 34 || c == '(' ||
  c == ')' || c == ',' || c == ';' || c == '|' || c == ':' || c == ']'

/-- `re.sub(INVALID_FASTA_CHARS, "", line)`: delete every invalid character. -/
def removeInvalid (l : List Char) : List Char :=
  l.filter (fun c => !invalidChar c)

/-- `re.sub(" ", "_", line)`: replace each space with an underscore. -/
def replSpace (l : List Char) : List Char :=
  l.map (fun c => if c == ' ' then '_' else c)

/-- One line of the sanitization pass in
`treesortrunner/treesortrunner.py, prepare_input_file`: a line starting
with the FASTA header marker is stripped, has the invalid characters
deleted, has each remaining space replaced by an underscore, and gets a
newline re-appended; any other line passes through unchanged. -/
def sanitizeLine (l : List Char) : List Char :=
  if l.head? == some '>' then
    replSpace (removeInvalid (pyStrip l)) ++ ['\n']
  else
    l

/-- Split a raw character stream into the lines Python's file iteration
yields: each line keeps its terminating newline, and the final line may
lack one. -/
def splitLines : List Char → List (List Char)
  | [] => []
  | c :: rest =>
    if c = '\n' then ['\n'] :: splitLines rest
    else
      match splitLines rest with
      | [] => [[c]]
      | l :: ls => (c :: l) :: ls

/-- The whole sanitization pass: read the file line by line, sanitize
each line, concatenate, and write the result back (`f.seek(0)`,
`f.write(data)`, `f.truncate()`). -/
def sanitizeFile (s : List Char) : List Char :=
  ((splitLines s).map sanitizeLine).flatten

/-- `safeTrim` from `run_treesort.py`: trim a possibly-null string,
always returning a non-null value. -/
def safeTrim : Option String → String
  | none => ""
  | some s => if s == "" then "" else pyStripS s

/-- Python truthiness of a possibly-null string field: `None` and the
empty string are falsy. -/
def pyTruthy : Option String → Bool
  | none => false
  | some s => !(s == "")

/-- `o.startswith(p)` on a string field known to be truthy. -/
def optStartsWith (o : Option String) (p : String) : Bool :=
  pyStartsWith (o.getD "") p

/-- `VALID_SEGMENTS` from `run_treesort.py`: the canonical influenza
segment codes, in catalog order. -/
def VALID_SEGMENTS : List String :=
  ["PB2", "PB1", "PA", "HA", "NP", "NA", "MP", "NS"]

/-- `DEFAULT_REF_SEGMENT` from `run_treesort.py`. -/
def DEFAULT_REF_SEGMENT : String := "HA"

/-- The `jobdesc.json` contents (`JobData` dataclass of
`run_treesort.py`).  String-valued fields arrive from JSON and may be
null, hence `Option String`; the two numeric thresholds are passed
through uninterpreted and are modelled as integers. -/
structure JobData where
  clades_path : Option String
  deviation : Int
  equal_rates : Bool
  input_existing_directory : Option String
  input_fasta_data : Option String
  input_fasta_file_id : Option String
  input_source : Option String
  is_time_scaled : Bool
  match_on_epi : Bool
  match_on_regex : Option String
  match_on_strain : Bool
  method : Option String
  no_collapse : Bool
  output_path : Option String
  prepare_dataset : Bool
  p_value : Int
  ref_segment : Option String
  ref_tree_inference : Option String
  segments : Option String
deriving DecidableEq, Repr

/-- The distinct `ValueError`/`Exception` messages `is_job_data_valid`
can raise, in source order. -/
inductive VErr where
  | notValidInputSource
  | invalidFastaData
  | invalidFastaFileId
  | invalidPreparedSource
  | missingExistingDirectory
  | invalidMethod
  | invalidOutputPath
  | invalidRefSegment (seg : String)
  | invalidSegment (seg : String)
deriving DecidableEq, Repr

/-- `self.job_data.input_source not in [i.value for i in InputSource]`. -/
def memInputSource (o : Option String) : Bool :=
  o == some "fasta_data" || o == some "fasta_file_id" || o == some "prepared_files"

/-- `self.job_data.method not in [m.value for m in Method]`. -/
def memMethod (o : Option String) : Bool :=
  o == some "local" || o == some "mincut"

/-- Last checks of `is_job_data_valid` (`run_treesort.py`): the segments
list.  The loop raises at the first entry outside `VALID_SEGMENTS`. -/
def validateSegs (jd : JobData) : JobData × Option VErr :=
  let s := safeTrim jd.segments
  if s.length > 0 then
    match (s.splitOn ",").find? (fun seg => !(VALID_SEGMENTS.contains seg)) with
    | some seg => (jd, some (VErr.invalidSegment seg))
    | none => (jd, none)
  else (jd, none)

/-- Checks of `is_job_data_valid` after the input-source block: method,
output path, reference segment, then the segments list.  The defaulted
reference segment is a local variable of the Python code and is
deliberately not stored back into the record. -/
def validateTail (jd : JobData) : JobData × Option VErr :=
  if !memMethod jd.method then (jd, some VErr.invalidMethod)
  else if !pyTruthy jd.output_path then (jd, some VErr.invalidOutputPath)
  else
    let r := safeTrim jd.ref_segment
    if r == "" then validateSegs jd
    else if !(VALID_SEGMENTS.contains r) then (jd, some (VErr.invalidRefSegment r))
    else validateSegs jd

/-- `TreeSortRunner.is_job_data_valid` of `run_treesort.py`, lines
190-266, as a state-passing function: the returned `JobData` is the
(possibly mutated) `self.job_data` and the `Option VErr` is the raised
exception, if any.  The sequential checks raise at the first violation. -/
def validateRun (jd : JobData) : JobData × Option VErr :=
  if !memInputSource jd.input_source then (jd, some VErr.notValidInputSource)
  else if jd.input_source == some "fasta_data" && !pyTruthy jd.input_fasta_data then
    (jd, some VErr.invalidFastaData)
  else if jd.prepare_dataset then
    if jd.input_source == some "fasta_data" then
      if !pyTruthy jd.input_fasta_data then (jd, some VErr.invalidFastaData)
      else validateTail jd
    else if jd.input_source == some "fasta_file_id" then
      if !pyTruthy jd.input_fasta_file_id then (jd, some VErr.invalidFastaFileId)
      else if optStartsWith jd.input_fasta_file_id "ws:" then
        validateTail { jd with input_fasta_file_id := jd.input_fasta_file_id.map (fun s => s.drop 3) }
      else validateTail jd
    else validateTail jd
  else
    if !(jd.input_source == some "prepared_files") then (jd, some VErr.invalidPreparedSource)
    else if !pyTruthy jd.input_existing_directory then (jd, some VErr.missingExistingDirectory)
    else if optStartsWith jd.input_existing_directory "ws:" then
      validateTail { jd with input_existing_directory := jd.input_existing_directory.map (fun s => s.drop 3) }
    else validateTail jd

/-- The observable behaviour of `is_job_data_valid`: the mutated job
data together with the boolean result; the `except` handler converts
every raised error into `False`. -/
def is_job_data_valid (jd : JobData) : JobData × Bool :=
  ((validateRun jd).1, ((validateRun jd).2).isNone)

/-- The match-mode portion of the `treesort` command built by
`TreeSortRunner.tree_sort` (`run_treesort.py`, lines 516-525): an
`if`/`elif`/`elif` chain over the three raw match fields. -/
def matchModeArgs (jd : JobData) : List String :=
  if jd.match_on_strain then ["--match-on-strain"]
  else if jd.match_on_epi then ["--match-on-epi"]
  else if pyTruthy jd.match_on_regex then
    ["--match-on-regex", jd.match_on_regex.getD ""]
  else []

/-- The full `treesort` command assembled by `TreeSortRunner.tree_sort`
of `run_treesort.py`, given the runner's work and staging directories. -/
def tree_sort_cmd (jd : JobData) (work staging : String) : List String :=
  ["treesort"]
  ++ (let cp := safeTrim jd.clades_path
      if cp.length > 0 then ["--clades", cp] else [])
  ++ ["-i", work ++ "/" ++ "descriptor.csv"]
  ++ matchModeArgs jd
  ++ (if jd.no_collapse then ["--no-collapse"] else [])
  ++ ["-o", staging]
  ++ (if jd.equal_rates then ["--equal-rates"] else [])
  ++ (if jd.is_time_scaled then ["--timetree"] else [])

/-- The dataset-preparation command assembled by
`TreeSortRunner.run_prepare_dataset` of `run_treesort.py` (lines
381-425): the reference segment is appended only when the stored
`ref_segment` field is truthy. -/
def run_prepare_dataset_cmd (jd : JobData) (input_filename work : String) : List String :=
  ["prepare_dataset_051625.sh"]
  ++ (if pyTruthy jd.ref_tree_inference && jd.ref_tree_inference == some "FastTree" then
        ["--fast"] else [])
  ++ (if pyTruthy jd.segments then ["--segments", jd.segments.getD ""] else [])
  ++ [input_filename]
  ++ (if pyTruthy jd.ref_segment then [jd.ref_segment.getD ""] else [])
  ++ [work]

/-- The identifier handed to the remote-fetch collaborator by
`TreeSortRunner.prepare_input_file` of `run_treesort.py`, line 325:
`f"ws:{self.job_data.input_fasta_file_id}"`. -/
def fetchTarget (jd : JobData) : String :=
  "ws:" ++ jd.input_fasta_file_id.getD ""

/-- Number of leading `ws:` workspace markers of a character stream. -/
def wsCount : List Char → Nat
  | 'w' :: 's' :: ':' :: rest => wsCount rest + 1
  | _ => 0

/-- Case-fold a string to a character list, as `re.IGNORECASE` matching
is modelled by comparing lower-cased text. -/
def lowerChars (s : String) : List Char :=
  s.toList.map Char.toLower

/-- Does `pat` occur as a contiguous substring of the list? -/
def containsL (pat : List Char) : List Char → Bool
  | [] => startsWithL pat []
  | c :: cs => startsWithL pat (c :: cs) || containsL pat cs

/-- `re.search(rf"\|{segment_name}\|", header, re.IGNORECASE)`: the
segment codes are alphanumeric, so the pattern is the literal substring
`|CODE|`, matched case-insensitively. -/
def headerMatches (seg : String) (header : String) : Bool :=
  containsL (lowerChars ("|" ++ seg ++ "|")) (lowerChars header)

/-- `TreeSortRunner.get_segment_from_header` (`run_treesort.py`, lines
177-186): the first catalog entry, in catalog order, whose
pipe-delimited code occurs in the header. -/
def get_segment_from_header (header : String) : Option String :=
  VALID_SEGMENTS.find? (fun seg => headerMatches seg header)

/-- Mutable state of `split_fasta_by_segment`: the current-segment
cursor, `self.fasta_segments` (segments seen, in order of first
assignment) and `fasta_by_segment` (an insertion-ordered map from
segment to accumulated text). -/
structure SplitState where
  current : Option String
  seen : List String
  buffers : List (String × String)
deriving DecidableEq, Repr

/-- `fasta_by_segment[current_segment] += line` with insertion-ordered
keys: append to an existing entry or add a new one at the end. -/
def addToBuf : List (String × String) → String → String → List (String × String)
  | [], seg, out => [(seg, out)]
  | (k, v) :: rest, seg, out =>
    if k = seg then (k, v ++ out) :: rest else (k, v) :: addToBuf rest seg out

/-- One iteration of the line loop of `split_fasta_by_segment`
(`run_treesort.py`, lines 440-470).  `line` is the line as Python's file
iteration yields it (trailing newline included except possibly on the
file's last line). -/
def splitStep (st : SplitState) (line : String) : SplitState :=
  match (if pyStartsWith line ">" then get_segment_from_header (pyStripS line)
         else st.current) with
  | none => { st with current := none }
  | some seg =>
    { current := some seg,
      seen := if st.seen.contains seg then st.seen else st.seen ++ [seg],
      buffers := addToBuf st.buffers seg
        ((if pyStartsWith line ">" then pyStripS line else line) ++ "\n") }

/-- The whole scan of `split_fasta_by_segment` over the input file's
lines, from the fresh runner state (`self.fasta_segments = []`). -/
def splitRun (lines : List String) : SplitState :=
  lines.foldl splitStep { current := none, seen := [], buffers := [] }

/-- The output files the write loop of `split_fasta_by_segment` (lines
474-489) attempts to create: one per buffered segment, skipping (with a
diagnostic, not an error) any whose accumulated content is empty. -/
def writeAttempts (work : String) (bufs : List (String × String)) : List String :=
  bufs.filterMap (fun p =>
    if p.2 == "" || p.2.length < 1 then none
    else some (work ++ "/" ++ p.1 ++ "-" ++ "input.fasta"))

/-- The six validation rules of the specification, in the order the spec
fixes for failure reporting. -/
inductive Rule where
  | inputSource
  | prepConsistency
  | method
  | outputPath
  | refSegment
  | segments
deriving DecidableEq, Repr

/-- Which specification rule each raised validation error reports. -/
def errToRule : VErr → Rule
  | VErr.notValidInputSource => Rule.inputSource
  | VErr.invalidFastaData => Rule.inputSource
  | VErr.invalidFastaFileId => Rule.prepConsistency
  | VErr.invalidPreparedSource => Rule.prepConsistency
  | VErr.missingExistingDirectory => Rule.prepConsistency
  | VErr.invalidMethod => Rule.method
  | VErr.invalidOutputPath => Rule.outputPath
  | VErr.invalidRefSegment _ => Rule.refSegment
  | VErr.invalidSegment _ => Rule.segments

/-- Modelled from the spec: input-source consistency — the discriminator
is known and, for the inline-data variant, a payload is present. -/
def r1Ok (jd : JobData) : Bool :=
  memInputSource jd.input_source &&
  !(jd.input_source == some "fasta_data" && !pyTruthy jd.input_fasta_data)

/-- Modelled from the spec: dataset-preparation consistency — when the
dataset is to be prepared, the remote-file-id variant must carry an id;
otherwise the source must be the prepared-files variant with an existing
directory. -/
def r2Ok (jd : JobData) : Bool :=
  if jd.prepare_dataset then
    !(jd.input_source == some "fasta_file_id" && !pyTruthy jd.input_fasta_file_id)
  else
    jd.input_source == some "prepared_files" && pyTruthy jd.input_existing_directory

/-- Modelled from the spec: the method is a known discriminator. -/
def r3Ok (jd : JobData) : Bool := memMethod jd.method

/-- Modelled from the spec: the output path is present. -/
def r4Ok (jd : JobData) : Bool := pyTruthy jd.output_path

/-- Modelled from the spec: the reference segment, after trimming, is
empty (to be defaulted) or canonical. -/
def r5Ok (jd : JobData) : Bool :=
  safeTrim jd.ref_segment == "" || VALID_SEGMENTS.contains (safeTrim jd.ref_segment)

/-- Modelled from the spec: the segments list, after trimming, is empty
or each comma-separated entry is canonical. -/
def r6Ok (jd : JobData) : Bool :=
  (safeTrim jd.segments).length == 0 ||
  ((safeTrim jd.segments).splitOn ",").all (fun seg => VALID_SEGMENTS.contains seg)

/-- Modelled from the spec: the first violated rule, checked in the
spec's fixed order. -/
def specFirstViolation (jd : JobData) : Option Rule :=
  if !r1Ok jd then some Rule.inputSource
  else if !r2Ok jd then some Rule.prepConsistency
  else if !r3Ok jd then some Rule.method
  else if !r4Ok jd then some Rule.outputPath
  else if !r5Ok jd then some Rule.refSegment
  else if !r6Ok jd then some Rule.segments
  else none

/-- A benign job record: inline FASTA data, local method, an output
path, canonical reference segment, dataset preparation requested. -/
def exBase : JobData :=
  { clades_path := none, deviation := 0, equal_rates := false,
    input_existing_directory := none,
    input_fasta_data := some ">x|HA|\nACGT\n",
    input_fasta_file_id := none, input_source := some "fasta_data",
    is_time_scaled := false, match_on_epi := false, match_on_regex := none,
    match_on_strain := false, method := some "local", no_collapse := false,
    output_path := some "/out", prepare_dataset := true, p_value := 0,
    ref_segment := some "HA", ref_tree_inference := none, segments := none }

/-- A valid job record fetching its input from the workspace with a
single `ws:` marker. -/
def exJdWs : JobData :=
  { exBase with input_source := some "fasta_file_id",
                input_fasta_data := none,
                input_fasta_file_id := some "ws:foo" }

/-- A valid job record whose remote identifier carries a doubled
workspace marker. -/
def exJdWs2 : JobData :=
  { exBase with input_source := some "fasta_file_id",
                input_fasta_data := none,
                input_fasta_file_id := some "ws:ws:x" }

lemma validateSegs_fst (jd : JobData) : (validateSegs jd).1 = jd := by
  unfold validateSegs
  dsimp only
  split
  · split <;> rfl
  · rfl

lemma validateTail_fst (jd : JobData) : (validateTail jd).1 = jd := by
  unfold validateTail
  dsimp only
  split_ifs <;> simp [validateSegs_fst]

/-- C1: the detection-tool argument list built by `tree_sort` contains
the match-mode block as one contiguous chunk; that chunk holds at most
one of the three match-mode flags even when several raw fields are set,
with `match_on_strain` winning over `match_on_epi` winning over
`match_on_regex`, the losing selections silently ignored. -/
theorem c1_match_mode_exclusive :
    ∀ (jd : JobData) (work staging : String),
      (∃ pre suf, tree_sort_cmd jd work staging = pre ++ matchModeArgs jd ++ suf) ∧
      (matchModeArgs jd = [] ∨ matchModeArgs jd = ["--match-on-strain"] ∨
        matchModeArgs jd = ["--match-on-epi"] ∨
        ∃ p, jd.match_on_regex = some p ∧ matchModeArgs jd = ["--match-on-regex", p]) ∧
      (jd.match_on_strain = true → matchModeArgs jd = ["--match-on-strain"]) ∧
      (jd.match_on_strain = false → jd.match_on_epi = true →
        matchModeArgs jd = ["--match-on-epi"]) ∧
      (jd.match_on_strain = false → jd.match_on_epi = false →
        pyTruthy jd.match_on_regex = true →
        matchModeArgs jd = ["--match-on-regex", jd.match_on_regex.getD ""]) := by
  intro jd work staging
  refine ⟨⟨["treesort"]
      ++ (let cp := safeTrim jd.clades_path
          if cp.length > 0 then ["--clades", cp] else [])
      ++ ["-i", work ++ "/" ++ "descriptor.csv"],
      (if jd.no_collapse then ["--no-collapse"] else [])
      ++ ["-o", staging]
      ++ (if jd.equal_rates then ["--equal-rates"] else [])
      ++ (if jd.is_time_scaled then ["--timetree"] else []),
      by simp [tree_sort_cmd]⟩, ?_, ?_, ?_, ?_⟩
  · unfold matchModeArgs
    split_ifs with h1 h2 h3
    · exact Or.inr (Or.inl rfl)
    · exact Or.inr (Or.inr (Or.inl rfl))
    · cases hmr : jd.match_on_regex with
      | none => rw [hmr] at h3; simp [pyTruthy] at h3
      | some p => exact Or.inr (Or.inr (Or.inr ⟨p, rfl, rfl⟩))
    · exact Or.inl rfl
  · intro h; simp [matchModeArgs, h]
  · intro h1 h2; simp [matchModeArgs, h1, h2]
  · intro h1 h2 h3; simp [matchModeArgs, h1, h2, h3]

/-- Witness for C1 at a record with all three raw match fields set:
only the strain-name flag is emitted. -/
theorem c1_match_mode_exclusive_witness :
    matchModeArgs { exBase with match_on_strain := true, match_on_epi := true,
                                match_on_regex := some "pat" } =
      ["--match-on-strain"] :=
  (c1_match_mode_exclusive
    { exBase with match_on_strain := true, match_on_epi := true,
                  match_on_regex := some "pat" } "w" "s").2.2.1 rfl

/-- C2 records a code bug: for a record whose reference segment is the
empty string, validation succeeds, but the defaulted value `HA` is
computed into a discarded local variable and never stored, so the
configuration keeps the empty string and the dataset-preparation command
receives no reference-segment argument at all. -/
theorem c2_ref_segment_default_not_stored :
    (validateRun { exBase with ref_segment := some "" }).2 = none ∧
    (validateRun { exBase with ref_segment := some "" }).1.ref_segment = some "" ∧
    (validateRun { exBase with ref_segment := some "" }).1.ref_segment ≠
      some DEFAULT_REF_SEGMENT ∧
    DEFAULT_REF_SEGMENT ∉
      run_prepare_dataset_cmd (validateRun { exBase with ref_segment := some "" }).1
        "input.fasta" "/work" := by decide

/-- Counterexample to C4 as stated: character deletion can expose a
trailing tab in a header, which only the second pass strips, so the two
passes differ on the file `">a\t(\n"`. -/
theorem c4_sanitize_not_idempotent_counterexample :
    sanitizeFile (sanitizeFile (">a\t(\n".toList)) ≠
      sanitizeFile (">a\t(\n".toList) := by decide

/-- Counterexample to C5 as stated: sanitizing the spec's example header
does not give `>strainA_BtestHA` (with or without the re-appended
newline); the space sits between `strain` and `A`, so the underscore
lands there. -/
theorem c5_header_example_counterexample :
    sanitizeLine (">strain A,(B);test|HA|".toList) ≠ ">strainA_BtestHA".toList ∧
    sanitizeLine (">strain A,(B);test|HA|".toList) ≠ ">strainA_BtestHA\n".toList := by
  decide

/-- C5 amended: the header `>strain A,(B);test|HA|` sanitizes to
`>strain_ABtestHA` (with the newline re-appended): the space between
`strain` and `A` becomes the underscore, and the commas, parentheses,
semicolon and pipes are deleted. -/
theorem c5_header_example_amended :
    sanitizeLine (">strain A,(B);test|HA|".toList) = ">strain_ABtestHA\n".toList ∧
    sanitizeFile (">strain A,(B);test|HA|\n".toList) = ">strain_ABtestHA\n".toList := by
  decide

/-- Counterexample to C7 as stated: validation mutates its input record
in place, stripping the workspace marker from the remote identifier. -/
theorem c7_validation_mutates_counterexample :
    (validateRun exJdWs).2 = none ∧
    (validateRun exJdWs).1.input_fasta_file_id = some "foo" ∧
    (validateRun exJdWs).1 ≠ exJdWs := by decide

/-- C7 amended: validation is pure except for the two workspace-marker
normalizations — the result record is the input record unchanged, or
with the remote identifier, or the existing-directory field, rewritten
by dropping its three-character marker; no other field is ever
modified. -/
theorem c7_validation_frame_amended :
    ∀ jd : JobData,
      (validateRun jd).1 = jd ∨
      (validateRun jd).1 =
        { jd with input_fasta_file_id := jd.input_fasta_file_id.map (fun s => s.drop 3) } ∨
      (validateRun jd).1 =
        { jd with input_existing_directory :=
            jd.input_existing_directory.map (fun s => s.drop 3) } := by
  intro jd
  unfold validateRun
  split_ifs <;> simp [validateTail_fst]

lemma wsCount_marker (r : List Char) :
    wsCount ('w' :: 's' :: ':' :: r) = wsCount r + 1 := rfl

/-- Counterexample to C6 as stated: a raw identifier with a doubled
workspace marker validates, but only the first marker is stripped, so
the identifier handed to the fetch collaborator carries two markers, not
exactly one. -/
theorem c6_ws_marker_counterexample :
    (validateRun exJdWs2).2 = none ∧
    optStartsWith exJdWs2.input_fasta_file_id "ws:" = true ∧
    ¬ wsCount (fetchTarget (validateRun exJdWs2).1).toList = 1 := by decide

/-- C6 amended: for a remote-file-id record whose identifier starts with
the workspace marker, validation strips exactly the first marker, and
the identifier handed to the remote-fetch collaborator carries exactly
one marker provided the remainder after the stripped marker does not
itself begin with `ws:`. -/
theorem c6_ws_marker_amended :
    ∀ (jd : JobData) (s : String),
      jd.prepare_dataset = true →
      jd.input_source = some "fasta_file_id" →
      jd.input_fasta_file_id = some s →
      pyStartsWith s "ws:" = true →
      wsCount (s.drop 3).toList = 0 →
      (validateRun jd).1.input_fasta_file_id = some (s.drop 3) ∧
      wsCount (fetchTarget (validateRun jd).1).toList = 1 := by
  intro jd s hp hsrc hid hsw h0
  have hs' : ¬ s = "" := by
    intro h; rw [h] at hsw; exact absurd hsw (by decide)
  have h1 : (validateRun jd).1 = { jd with input_fasta_file_id := some (s.drop 3) } := by
    unfold validateRun
    simp +decide [hsrc, hid, hp, pyTruthy, hs', optStartsWith, hsw, validateTail_fst,
      memInputSource]
  rw [h1]
  refine ⟨rfl, ?_⟩
  have h2 : (fetchTarget { jd with input_fasta_file_id := some (s.drop 3) }).toList =
      'w' :: 's' :: ':' :: (s.drop 3).toList := by
    show ("ws:" ++ s.drop 3).data = _
    rw [String.data_append]
    rfl
  rw [h2, wsCount_marker, h0]

/-- Witness for C6's amended statement at the identifier `ws:foo`. -/
theorem c6_ws_marker_amended_witness :
    (validateRun exJdWs).1.input_fasta_file_id = some ("ws:foo".drop 3) ∧
    wsCount (fetchTarget (validateRun exJdWs).1).toList = 1 :=
  c6_ws_marker_amended exJdWs "ws:foo" (by decide) (by decide) (by decide)
    (by decide) (by decide)

/-- The error component of `validateSegs`, as a function of the raw
`segments` field alone. -/
def validateSegsE (segs : Option String) : Option VErr :=
  let s := safeTrim segs
  if s.length > 0 then
    match (s.splitOn ",").find? (fun seg => !(VALID_SEGMENTS.contains seg)) with
    | some seg => some (VErr.invalidSegment seg)
    | none => none
  else none

/-- The error component of `validateTail`, as a function of the four raw
fields it reads. -/
def validateTailE (method output ref segs : Option String) : Option VErr :=
  if !memMethod method then some VErr.invalidMethod
  else if !pyTruthy output then some VErr.invalidOutputPath
  else
    let r := safeTrim ref
    if r == "" then validateSegsE segs
    else if !(VALID_SEGMENTS.contains r) then some (VErr.invalidRefSegment r)
    else validateSegsE segs

/-- The error component of `validateRun`: the workspace-marker
normalizations touch only fields the later checks never read, so the two
`ws:` branches collapse. -/
def validateRunE (jd : JobData) : Option VErr :=
  if !memInputSource jd.input_source then some VErr.notValidInputSource
  else if jd.input_source == some "fasta_data" && !pyTruthy jd.input_fasta_data then
    some VErr.invalidFastaData
  else if jd.prepare_dataset then
    if jd.input_source == some "fasta_data" then
      if !pyTruthy jd.input_fasta_data then some VErr.invalidFastaData
      else validateTailE jd.method jd.output_path jd.ref_segment jd.segments
    else if jd.input_source == some "fasta_file_id" then
      if !pyTruthy jd.input_fasta_file_id then some VErr.invalidFastaFileId
      else validateTailE jd.method jd.output_path jd.ref_segment jd.segments
    else validateTailE jd.method jd.output_path jd.ref_segment jd.segments
  else
    if !(jd.input_source == some "prepared_files") then some VErr.invalidPreparedSource
    else if !pyTruthy jd.input_existing_directory then some VErr.missingExistingDirectory
    else validateTailE jd.method jd.output_path jd.ref_segment jd.segments

lemma validateSegs_snd (jd : JobData) :
    (validateSegs jd).2 = validateSegsE jd.segments := by
  unfold validateSegs validateSegsE
  dsimp only
  split
  · split <;> rfl
  · rfl

lemma validateTail_snd (jd : JobData) :
    (validateTail jd).2 =
      validateTailE jd.method jd.output_path jd.ref_segment jd.segments := by
  unfold validateTail validateTailE
  dsimp only
  split_ifs <;> simp [validateSegs_snd]

lemma validateRun_snd (jd : JobData) : (validateRun jd).2 = validateRunE jd := by
  unfold validateRun validateRunE
  split_ifs <;> simp [validateTail_snd]

lemma validateRun_snd_segs (jd : JobData) :
    (validateRun { jd with segments := none }).2 =
      (validateRun { jd with segments := some "" }).2 := by
  rw [validateRun_snd, validateRun_snd]
  unfold validateRunE validateTailE
  have h : validateSegsE (some "") = validateSegsE none := by decide
  dsimp only
  rw [h]

lemma validateRun_snd_ref (jd : JobData) :
    (validateRun { jd with ref_segment := none }).2 =
      (validateRun { jd with ref_segment := some "" }).2 := by
  rw [validateRun_snd, validateRun_snd]
  unfold validateRunE validateTailE
  have h : safeTrim (some "") = safeTrim none := by decide
  dsimp only
  rw [h]

/-- C10: the validation routine is total — the boolean it returns is
exactly the absence of an internal validation error, every raised error
being caught and converted to `false`; and a null optional field
(`segments`, `ref_segment`) is handled like an empty one rather than
escaping as an exception. -/
theorem c10_validation_total :
    ∀ jd : JobData,
      ((is_job_data_valid jd).2 = true ↔ (validateRun jd).2 = none) ∧
      (∀ e, (validateRun jd).2 = some e → (is_job_data_valid jd).2 = false) ∧
      (validateRun { jd with segments := none }).2 =
        (validateRun { jd with segments := some "" }).2 ∧
      (validateRun { jd with ref_segment := none }).2 =
        (validateRun { jd with ref_segment := some "" }).2 := by
  intro jd
  refine ⟨?_, ?_, validateRun_snd_segs jd, validateRun_snd_ref jd⟩
  · simp [is_job_data_valid, Option.isNone_iff_eq_none]
  · intro e he; simp [is_job_data_valid, he]

/-- Witness for C10 at a record with an unknown input source: the
raised error is converted to a `false` result. -/
theorem c10_validation_total_witness :
    (is_job_data_valid { exBase with input_source := none }).2 = false :=
  (c10_validation_total { exBase with input_source := none }).2.1
    VErr.notValidInputSource (by decide)

lemma segs_spec (jd : JobData) :
    Option.map errToRule (validateSegs jd).2 =
      (if !r6Ok jd then some Rule.segments else none) := by
  rw [validateSegs_snd]
  unfold validateSegsE r6Ok
  dsimp only
  by_cases h : (safeTrim jd.segments).length > 0
  · rw [if_pos h]
    cases hf : ((safeTrim jd.segments).splitOn ",").find?
        (fun seg => !(VALID_SEGMENTS.contains seg)) with
    | none =>
      have hall : ((safeTrim jd.segments).splitOn ",").all
          (fun seg => VALID_SEGMENTS.contains seg) = true := by
        rw [List.all_eq_true]
        intro x hx
        have h2 := List.find?_eq_none.mp hf x hx
        simpa using h2
      rw [hall]
      simp
    | some seg =>
      have hmem := List.mem_of_find?_eq_some hf
      have hp := List.find?_some hf
      have hlen : ((safeTrim jd.segments).length == 0) = false := by
        have h2 : (safeTrim jd.segments).length ≠ 0 := by omega
        simpa using h2
      simp [hlen, errToRule]
      exact ⟨seg, hmem, by simpa using hp⟩
  · rw [if_neg h]
    have hlen : ((safeTrim jd.segments).length == 0) = true := by
      have h2 : (safeTrim jd.segments).length = 0 := by omega
      simpa using h2
    simp [hlen]

lemma tail_spec (jd : JobData) :
    Option.map errToRule (validateTail jd).2 =
      (if !r3Ok jd then some Rule.method
       else if !r4Ok jd then some Rule.outputPath
       else if !r5Ok jd then some Rule.refSegment
       else if !r6Ok jd then some Rule.segments
       else none) := by
  unfold validateTail r3Ok r4Ok r5Ok
  dsimp only
  by_cases h3 : memMethod jd.method
  · by_cases h4 : pyTruthy jd.output_path
    · by_cases h5 : (safeTrim jd.ref_segment == "") = true
      · simp [h3, h4, h5, segs_spec]
      · by_cases h5b : VALID_SEGMENTS.contains (safeTrim jd.ref_segment) = true
        · have h5b' : safeTrim jd.ref_segment ∈ VALID_SEGMENTS := by simpa using h5b
          simp [h3, h4, h5, h5b', segs_spec]
        · have h5b' : safeTrim jd.ref_segment ∉ VALID_SEGMENTS := by simpa using h5b
          simp [h3, h4, h5, h5b', errToRule]
    · simp [h3, h4, errToRule]
  · simp [h3, errToRule]

/-- C3: validation reports exactly one failure, the first violated rule
in the fixed order input-source consistency, dataset-preparation
consistency, method, output-path presence, reference segment, segments
list — and succeeds exactly when no rule is violated, so no later
rule's failure is ever reported when an earlier rule fails. -/
theorem c3_first_violation_order :
    ∀ jd : JobData, Option.map errToRule (validateRun jd).2 = specFirstViolation jd := by
  intro jd
  unfold validateRun specFirstViolation r1Ok r2Ok
  by_cases h1 : memInputSource jd.input_source = true
  · by_cases h2 : (jd.input_source == some "fasta_data" && !pyTruthy jd.input_fasta_data) = true
    · simp [h1, h2, errToRule]
    · by_cases hp : jd.prepare_dataset = true
      · by_cases hfd : (jd.input_source == some "fasta_data") = true
        · have hsrc : jd.input_source = some "fasta_data" := by simpa using hfd
          have hpay : pyTruthy jd.input_fasta_data = true := by
            cases hb : pyTruthy jd.input_fasta_data with
            | true => rfl
            | false => exact absurd (by rw [hfd, hb]; rfl) h2
          have hms : memInputSource (some "fasta_data") = true := by decide
          simp [h1, h2, hp, hfd, hsrc, hpay, hms, tail_spec]
        · by_cases hfid : (jd.input_source == some "fasta_file_id") = true
          · by_cases hid : pyTruthy jd.input_fasta_file_id = true
            · by_cases hws : optStartsWith jd.input_fasta_file_id "ws:" = true
              · simp [h1, h2, hp, hfd, hfid, hid, hws, tail_spec, r3Ok, r4Ok, r5Ok, r6Ok]
              · simp [h1, h2, hp, hfd, hfid, hid, hws, tail_spec]
            · simp [h1, h2, hp, hfd, hfid, hid, errToRule]
          · simp [h1, h2, hp, hfd, hfid, tail_spec]
      · by_cases hpf : (jd.input_source == some "prepared_files") = true
        · by_cases hdir : pyTruthy jd.input_existing_directory = true
          · by_cases hws : optStartsWith jd.input_existing_directory "ws:" = true
            · simp [h1, h2, hp, hpf, hdir, hws, tail_spec, r3Ok, r4Ok, r5Ok, r6Ok]
            · simp [h1, h2, hp, hpf, hdir, hws, tail_spec]
          · simp [h1, h2, hp, hpf, hdir, errToRule]
        · simp [h1, h2, hp, hpf, errToRule]
  · simp [h1, errToRule]

lemma strLen_zero {s : String} (h : s.length = 0) : s = "" := by
  cases s with
  | mk d =>
    have hd : d = [] := List.length_eq_zero.mp h
    rw [hd]

lemma strApp_ne_empty (a b : String) (h : ¬ b = "") : ¬ (a ++ b) = "" := by
  intro hc
  apply h
  have h1 := congrArg String.length hc
  rw [String.length_append, show ("" : String).length = 0 from rfl] at h1
  exact strLen_zero (by omega)

lemma addToBuf_fst_mem : ∀ (bufs : List (String × String)) (k v : String),
    k ∈ bufs.map Prod.fst → (addToBuf bufs k v).map Prod.fst = bufs.map Prod.fst
  | [], k, v, h => by simp at h
  | (a, b) :: rest, k, v, h => by
    by_cases hk : a = k
    · simp [addToBuf, hk]
    · have h' : k ∈ rest.map Prod.fst := by
        rcases (by simpa using h : k = a ∨ k ∈ rest.map Prod.fst) with h | h
        · exact absurd h.symm hk
        · exact h
      simp [addToBuf, hk, addToBuf_fst_mem rest k v h']

lemma addToBuf_fst_not_mem : ∀ (bufs : List (String × String)) (k v : String),
    k ∉ bufs.map Prod.fst → (addToBuf bufs k v).map Prod.fst = bufs.map Prod.fst ++ [k]
  | [], k, v, _ => by simp [addToBuf]
  | (a, b) :: rest, k, v, h => by
    have hk : ¬ a = k := by
      intro hc
      exact h (by simp [hc])
    have h' : k ∉ rest.map Prod.fst := by
      intro hc
      exact h (by simp [hc])
    simp [addToBuf, hk, addToBuf_fst_not_mem rest k v h']

lemma addToBuf_vals : ∀ (bufs : List (String × String)) (k v : String),
    (∀ p ∈ bufs, ¬ p.2 = "") → ¬ v = "" → ∀ p ∈ addToBuf bufs k v, ¬ p.2 = ""
  | [], k, v, _, hv, p, hp => by
    simp [addToBuf] at hp
    subst hp
    exact hv
  | (a, b) :: rest, k, v, hb, hv, p, hp => by
    by_cases hk : a = k
    · simp [addToBuf, hk] at hp
      rcases hp with hp | hp
      · rw [hp]
        exact strApp_ne_empty b v hv
      · exact hb p (List.mem_cons_of_mem _ hp)
    · simp [addToBuf, hk] at hp
      rcases hp with hp | hp
      · rw [hp]
        exact hb (a, b) (List.mem_cons_self _ _)
      · exact addToBuf_vals rest k v (fun q hq => hb q (List.mem_cons_of_mem _ hq)) hv p hp

lemma splitStep_none (st : SplitState) (line : String)
    (h : (if pyStartsWith line ">" then get_segment_from_header (pyStripS line)
          else st.current) = none) :
    splitStep st line = { st with current := none } := by
  unfold splitStep
  rw [h]

lemma splitStep_some (st : SplitState) (line : String) (seg : String)
    (h : (if pyStartsWith line ">" then get_segment_from_header (pyStripS line)
          else st.current) = some seg) :
    splitStep st line =
      { current := some seg,
        seen := if st.seen.contains seg then st.seen else st.seen ++ [seg],
        buffers := addToBuf st.buffers seg
          ((if pyStartsWith line ">" then pyStripS line else line) ++ "\n") } := by
  unfold splitStep
  rw [h]

/-- The loop invariant of `split_fasta_by_segment`: the cursor points at
a seen segment; the seen list is duplicate-free, catalog-only, and lists
the buffer keys in order of first assignment; every buffer is
non-empty. -/
def SplitInv (st : SplitState) : Prop :=
  (∀ c, st.current = some c → c ∈ st.seen) ∧
  st.seen.Nodup ∧
  (∀ s ∈ st.seen, s ∈ VALID_SEGMENTS) ∧
  st.seen = st.buffers.map Prod.fst ∧
  (∀ p ∈ st.buffers, ¬ p.2 = "")

lemma contains_iff_mem (l : List String) (a : String) : l.contains a = true ↔ a ∈ l :=
  List.elem_iff

lemma splitStep_SInv (st : SplitState) (line : String) (h : SplitInv st) :
    SplitInv (splitStep st line) := by
  obtain ⟨hc, hnd, hv, hk, hb⟩ := h
  cases hcur : (if pyStartsWith line ">" then get_segment_from_header (pyStripS line)
                else st.current) with
  | none =>
    rw [splitStep_none st line hcur]
    exact ⟨fun c hcc => by simp at hcc, hnd, hv, hk, hb⟩
  | some seg =>
    rw [splitStep_some st line seg hcur]
    have hbuf : ∀ p ∈ addToBuf st.buffers seg
        ((if pyStartsWith line ">" then pyStripS line else line) ++ "\n"), ¬ p.2 = "" :=
      addToBuf_vals st.buffers seg _ hb (strApp_ne_empty _ "\n" (by decide))
    by_cases hmem : st.seen.contains seg = true
    · have hmem' : seg ∈ st.seen := (contains_iff_mem _ _).mp hmem
      refine ⟨?_, ?_, ?_, ?_, hbuf⟩
      · intro c hcc
        obtain rfl : seg = c := by simpa using hcc
        rw [if_pos hmem]
        exact hmem'
      · rw [if_pos hmem]
        exact hnd
      · rw [if_pos hmem]
        exact hv
      · have hkm : seg ∈ st.buffers.map Prod.fst := hk ▸ hmem'
        rw [if_pos hmem, addToBuf_fst_mem st.buffers seg _ hkm]
        exact hk
    · have hmem' : seg ∉ st.seen := fun hx => hmem ((contains_iff_mem _ _).mpr hx)
      have hsegv : seg ∈ VALID_SEGMENTS := by
        by_cases hh : pyStartsWith line ">" = true
        · rw [if_pos hh] at hcur
          exact List.mem_of_find?_eq_some hcur
        · rw [if_neg hh] at hcur
          exact absurd (hc seg hcur) hmem'
      refine ⟨?_, ?_, ?_, ?_, hbuf⟩
      · intro c hcc
        obtain rfl : seg = c := by simpa using hcc
        rw [if_neg hmem]
        exact List.mem_append_right _ (by simp)
      · rw [if_neg hmem, List.nodup_append]
        refine ⟨hnd, List.nodup_singleton seg, ?_⟩
        intro a ha hb'
        obtain rfl : a = seg := by simpa using hb'
        exact hmem' ha
      · intro s hs
        rw [if_neg hmem] at hs
        rcases List.mem_append.mp hs with hs | hs
        · exact hv s hs
        · obtain rfl : s = seg := by simpa using hs
          exact hsegv
      · have hnotk : seg ∉ st.buffers.map Prod.fst := hk ▸ hmem'
        rw [if_neg hmem, addToBuf_fst_not_mem st.buffers seg _ hnotk, hk]

lemma splitRun_SInv (lines : List String) : SplitInv (splitRun lines) := by
  have hgen : ∀ (ls : List String) (st : SplitState), SplitInv st →
      SplitInv (ls.foldl splitStep st) := by
    intro ls
    induction ls with
    | nil => intro st h; simpa using h
    | cons l ls ih =>
      intro st h
      rw [List.foldl_cons]
      exact ih _ (splitStep_SInv st l h)
  refine hgen _ _ ?_
  exact ⟨fun c hcc => by simp at hcc, List.nodup_nil, fun s hs => by simp at hs, rfl,
    fun p hp => by simp at hp⟩

lemma writeAttempts_full (work : String) (bufs : List (String × String))
    (h : ∀ p ∈ bufs, ¬ p.2 = "") :
    writeAttempts work bufs =
      bufs.map (fun p => work ++ "/" ++ p.1 ++ "-" ++ "input.fasta") := by
  induction bufs with
  | nil => rfl
  | cons p rest ih =>
    have hp : ¬ p.2 = "" := h p (List.mem_cons_self _ _)
    have hc1 : (p.2 == "") = false := by simpa using hp
    have hc2 : decide (p.2.length < 1) = false :=
      decide_eq_false (fun hlt => hp (strLen_zero (Nat.lt_one_iff.mp hlt)))
    have ih' := ih (fun q hq => h q (List.mem_cons_of_mem _ hq))
    simp only [writeAttempts, List.filterMap_cons, hc1, hc2, Bool.or_self,
      Bool.false_eq_true, if_false, List.map_cons] at ih' ⊢
    rw [ih']

lemma splitFold_seen : ∀ (lines : List String) (st : SplitState),
    (∀ c, st.current = some c → c ∈ st.seen) →
    ∀ seg, seg ∈ (lines.foldl splitStep st).seen →
      seg ∈ st.seen ∨ ∃ line ∈ lines, pyStartsWith line ">" = true ∧
        get_segment_from_header (pyStripS line) = some seg := by
  intro lines
  induction lines with
  | nil =>
    intro st _ seg hs
    exact Or.inl (by simpa using hs)
  | cons l ls ih =>
    intro st hinv seg hs
    rw [List.foldl_cons] at hs
    have hinv' : ∀ c, (splitStep st l).current = some c → c ∈ (splitStep st l).seen := by
      cases hcur : (if pyStartsWith l ">" then get_segment_from_header (pyStripS l)
                    else st.current) with
      | none =>
        rw [splitStep_none st l hcur]
        intro c hcc
        simp at hcc
      | some s0 =>
        rw [splitStep_some st l s0 hcur]
        intro c hcc
        obtain rfl : s0 = c := by simpa using hcc
        by_cases hmem : st.seen.contains s0 = true
        · rw [if_pos hmem]
          exact (contains_iff_mem _ _).mp hmem
        · rw [if_neg hmem]
          exact List.mem_append_right _ (by simp)
    rcases ih (splitStep st l) hinv' seg hs with h | ⟨line, hm, hrest⟩
    · cases hcur : (if pyStartsWith l ">" then get_segment_from_header (pyStripS l)
                    else st.current) with
      | none =>
        rw [splitStep_none st l hcur] at h
        exact Or.inl h
      | some s0 =>
        rw [splitStep_some st l s0 hcur] at h
        dsimp at h
        by_cases hmem : st.seen.contains s0 = true
        · rw [if_pos hmem] at h
          exact Or.inl h
        · rw [if_neg hmem] at h
          rcases List.mem_append.mp h with h | h
          · exact Or.inl h
          · obtain rfl : seg = s0 := by simpa using h
            by_cases hh : pyStartsWith l ">" = true
            · rw [if_pos hh] at hcur
              exact Or.inr ⟨l, List.mem_cons_self _ _, hh, hcur⟩
            · rw [if_neg hh] at hcur
              exact Or.inl (hinv _ hcur)
    · exact Or.inr ⟨line, List.mem_cons_of_mem _ hm, hrest⟩

/-- C8: a line processed while the cursor is unassigned (its own header
match included, when it is a header) is written to no buffer and marks
no segment as seen; a segment enters the seen set only through a header
whose stripped text matches its pipe-delimited catalog code. -/
theorem c8_unassigned_lines_dropped :
    (∀ (st : SplitState) (line : String),
        (if pyStartsWith line ">" then get_segment_from_header (pyStripS line)
         else st.current) = none →
        (splitStep st line).seen = st.seen ∧ (splitStep st line).buffers = st.buffers) ∧
    (∀ (lines : List String) (seg : String),
        seg ∈ (splitRun lines).seen →
        ∃ line ∈ lines, pyStartsWith line ">" = true ∧
          get_segment_from_header (pyStripS line) = some seg) := by
  constructor
  · intro st line h
    rw [splitStep_none st line h]
    exact ⟨rfl, rfl⟩
  · intro lines seg hs
    rcases splitFold_seen lines { current := none, seen := [], buffers := [] }
        (fun c hcc => by simp at hcc) seg hs with h | h
    · simp at h
    · exact h

/-- Witness for C8: a header with no recognized segment leaves the state
untouched, and the seen segment `HA` of a one-header file traces back to
that header line. -/
theorem c8_unassigned_lines_dropped_witness :
    ((splitStep { current := some "HA", seen := ["HA"], buffers := [("HA", "x")] }
        ">junk\n").seen = ["HA"] ∧
      (splitStep { current := some "HA", seen := ["HA"], buffers := [("HA", "x")] }
        ">junk\n").buffers = [("HA", "x")]) ∧
    (∃ line ∈ [">a|HA|\n"], pyStartsWith line ">" = true ∧
      get_segment_from_header (pyStripS line) = some "HA") := by
  constructor
  · exact c8_unassigned_lines_dropped.1
      { current := some "HA", seen := ["HA"], buffers := [("HA", "x")] } ">junk\n"
      (by decide)
  · exact c8_unassigned_lines_dropped.2 [">a|HA|\n"] "HA" (by decide)

/-- C9: after scanning any input from the fresh runner state, the
seen-segment list is duplicate-free, catalog-only, and equals the buffer
keys in order of first assignment; every buffer is non-empty, so the
skip-empty branch of the write loop never fires and exactly one output
file is attempted per seen segment. -/
theorem c9_splitter_invariant :
    ∀ (work : String) (lines : List String),
      (splitRun lines).seen.Nodup ∧
      (∀ s ∈ (splitRun lines).seen, s ∈ VALID_SEGMENTS) ∧
      (splitRun lines).seen = (splitRun lines).buffers.map Prod.fst ∧
      (∀ p ∈ (splitRun lines).buffers, ¬ p.2 = "") ∧
      writeAttempts work (splitRun lines).buffers =
        (splitRun lines).seen.map
          (fun seg => work ++ "/" ++ seg ++ "-" ++ "input.fasta") := by
  intro work lines
  obtain ⟨hc, hnd, hv, hk, hb⟩ := splitRun_SInv lines
  refine ⟨hnd, hv, hk, hb, ?_⟩
  rw [writeAttempts_full work _ hb, hk, List.map_map]
  rfl

/-- Witness for C9 on a two-line single-segment file: `HA` is canonical
and exactly its one output file is attempted. -/
theorem c9_splitter_invariant_witness :
    "HA" ∈ VALID_SEGMENTS ∧
    writeAttempts "/w" (splitRun [">a|HA|\n", "ACGT\n"]).buffers =
      (splitRun [">a|HA|\n", "ACGT\n"]).seen.map
        (fun seg => "/w" ++ "/" ++ seg ++ "-" ++ "input.fasta") := by
  refine ⟨(c9_splitter_invariant "/w" [">a|HA|\n", "ACGT\n"]).2.1 "HA" ?_,
    (c9_splitter_invariant "/w" [">a|HA|\n", "ACGT\n"]).2.2.2.2⟩
  decide

lemma mem_of_mem_dropWhile {p : Char → Bool} {l : List Char} {a : Char}
    (h : a ∈ l.dropWhile p) : a ∈ l :=
  (List.dropWhile_sublist p).mem h

lemma mem_of_mem_rdropWhileL {p : Char → Bool} {l : List Char} {a : Char}
    (h : a ∈ rdropWhileL p l) : a ∈ l := by
  unfold rdropWhileL at h
  rw [List.mem_reverse] at h
  exact List.mem_reverse.mp (mem_of_mem_dropWhile h)

lemma mem_of_mem_pyStrip {l : List Char} {a : Char} (h : a ∈ pyStrip l) : a ∈ l :=
  mem_of_mem_dropWhile (mem_of_mem_rdropWhileL h)

lemma dropWhile_append_one {p : Char → Bool} {c : Char} (hc : p c = false) :
    ∀ xs : List Char, (xs ++ [c]).dropWhile p = xs.dropWhile p ++ [c]
  | [] => by simp [List.dropWhile_cons, hc]
  | a :: xs => by
    by_cases ha : p a = true
    · simp only [List.cons_append, List.dropWhile_cons, ha, if_true]
      exact dropWhile_append_one hc xs
    · simp [List.cons_append, List.dropWhile_cons, ha]

lemma rdropWhileL_concat_pos {p : Char → Bool} {x : Char} (hx : p x = true)
    (l : List Char) : rdropWhileL p (l ++ [x]) = rdropWhileL p l := by
  unfold rdropWhileL
  rw [List.reverse_concat, List.dropWhile_cons, if_pos hx]

lemma rdropWhileL_cons_neg {p : Char → Bool} {c : Char} (hc : p c = false)
    (t : List Char) : rdropWhileL p (c :: t) = c :: rdropWhileL p t := by
  unfold rdropWhileL
  rw [show (c :: t).reverse = t.reverse ++ [c] by simp, dropWhile_append_one hc,
    List.reverse_concat]

lemma rdropWhileL_of_forall {p : Char → Bool} {l : List Char}
    (h : ∀ a ∈ l, p a = false) : rdropWhileL p l = l := by
  unfold rdropWhileL
  have hd : l.reverse.dropWhile p = l.reverse := by
    cases hr : l.reverse with
    | nil => rfl
    | cons a t =>
      rw [List.dropWhile_cons, if_neg]
      rw [h a (by rw [← List.mem_reverse, hr]; exact List.mem_cons_self _ _)]
      simp
  rw [hd, List.reverse_reverse]

lemma no_nl_dropLast_dropWhile {p : Char → Bool} :
    ∀ l : List Char, '\n' ∉ l.dropLast → '\n' ∉ (l.dropWhile p).dropLast
  | [], h => h
  | a :: t, h => by
    rw [List.dropWhile_cons]
    by_cases ha : p a = true
    · rw [if_pos ha]
      refine no_nl_dropLast_dropWhile t ?_
      intro hm
      apply h
      cases t with
      | nil => simp at hm
      | cons b t' =>
        rw [List.dropLast_cons₂]
        exact List.mem_cons_of_mem _ hm
    · rw [if_neg ha]
      exact h

lemma no_nl_pyStrip {l : List Char} (h : '\n' ∉ l.dropLast) : '\n' ∉ pyStrip l := by
  unfold pyStrip
  have hm : '\n' ∉ (l.dropWhile isPyWS).dropLast := no_nl_dropLast_dropWhile l h
  by_cases hin : '\n' ∈ l.dropWhile isPyWS
  · have hne : l.dropWhile isPyWS ≠ [] := by
      intro hc
      rw [hc] at hin
      simp at hin
    have hlast : (l.dropWhile isPyWS).getLast hne = '\n' := by
      rcases (List.mem_append.mp
          ((List.dropLast_append_getLast hne) ▸ hin)) with hx | hx
      · exact absurd hx hm
      · exact (by simpa using hx : '\n' = _).symm
    have hdec := List.dropLast_append_getLast hne
    rw [hlast] at hdec
    rw [← hdec, rdropWhileL_concat_pos (by decide) _]
    intro hx
    exact hm (mem_of_mem_rdropWhileL hx)
  · intro hx
    exact hin (mem_of_mem_rdropWhileL hx)

lemma pyStrip_cons_gt (t : List Char) :
    pyStrip ('>' :: t) = '>' :: rdropWhileL isPyWS t := by
  unfold pyStrip
  rw [List.dropWhile_cons, if_neg (by decide), rdropWhileL_cons_neg (by decide)]

lemma body_no_space (x : List Char) : ∀ c ∈ replSpace x, (c == ' ') = false := by
  intro c hc
  rcases List.mem_map.mp hc with ⟨d, _, hd⟩
  by_cases hd' : (d == ' ') = true
  · rw [if_pos hd'] at hd
    rw [← hd]
    decide
  · rw [if_neg hd'] at hd
    rw [← hd]
    simpa using hd'

lemma body_no_invalid (x : List Char) :
    ∀ c ∈ replSpace (removeInvalid x), invalidChar c = false := by
  intro c hc
  rcases List.mem_map.mp hc with ⟨d, hdm, hd⟩
  have hdv : invalidChar d = false := by
    have := (List.mem_filter.mp hdm).2
    simpa using this
  by_cases hd' : (d == ' ') = true
  · rw [if_pos hd'] at hd
    rw [← hd]
    decide
  · rw [if_neg hd'] at hd
    rw [← hd]
    exact hdv

lemma body_no_ws {l : List Char} (hnl : '\n' ∉ l.dropLast)
    (hres : ∀ c ∈ l, isPyWS c = true → c = ' ' ∨ c = '\n') :
    ∀ c ∈ replSpace (removeInvalid (pyStrip l)), isPyWS c = false := by
  intro c hc
  rcases List.mem_map.mp hc with ⟨d, hdm, hd⟩
  have hdl : d ∈ l := mem_of_mem_pyStrip ((List.mem_filter.mp hdm).1)
  have hds : d ∈ pyStrip l := (List.mem_filter.mp hdm).1
  by_cases hd' : (d == ' ') = true
  · rw [if_pos hd'] at hd
    rw [← hd]
    decide
  · rw [if_neg hd'] at hd
    by_cases hw : isPyWS d = true
    · rcases hres d hdl hw with h | h
      · rw [h] at hd'
        simp at hd'
      · rw [h] at hds
        exact absurd hds (no_nl_pyStrip hnl)
    · rw [← hd]
      simpa using hw

/-- Well-formedness of a line decomposition: every line is non-empty,
holds its newline only in final position, and every line but the last is
newline-terminated. -/
def goodLines : List (List Char) → Prop
  | [] => True
  | l :: ls =>
    l ≠ [] ∧ '\n' ∉ l.dropLast ∧ (ls = [] ∨ l.getLast? = some '\n') ∧ goodLines ls

lemma splitLines_flatten : ∀ s : List Char, (splitLines s).flatten = s
  | [] => rfl
  | c :: rest => by
    unfold splitLines
    by_cases hc : c = '\n'
    · rw [if_pos hc, hc]
      simpa using splitLines_flatten rest
    · rw [if_neg hc]
      cases hr : splitLines rest with
      | nil =>
        have : rest = [] := by
          have h2 := splitLines_flatten rest
          rw [hr] at h2
          simpa using h2.symm
        simp [this]
      | cons l ls =>
        have h2 := splitLines_flatten rest
        rw [hr] at h2
        simpa using h2

lemma goodLines_splitLines : ∀ s : List Char, goodLines (splitLines s)
  | [] => trivial
  | c :: rest => by
    unfold splitLines
    have ih := goodLines_splitLines rest
    by_cases hc : c = '\n'
    · rw [if_pos hc]
      cases hr : splitLines rest with
      | nil => exact ⟨by simp, by simp, Or.inl rfl, trivial⟩
      | cons l ls =>
        rw [hr] at ih
        exact ⟨by simp, by simp, Or.inr rfl, ih⟩
    · rw [if_neg hc]
      cases hr : splitLines rest with
      | nil => exact ⟨by simp, by simp, Or.inl rfl, trivial⟩
      | cons l ls =>
        rw [hr] at ih
        obtain ⟨hl1, hl2, hl3, hl4⟩ := ih
        refine ⟨by simp, ?_, ?_, hl4⟩
        · cases l with
          | nil => exact absurd rfl hl1
          | cons b t =>
            rw [List.dropLast_cons₂]
            intro hm
            rcases List.mem_cons.mp hm with hm | hm
            · exact hc hm.symm
            · exact hl2 hm
        · rcases hl3 with h | h
          · exact Or.inl h
          · refine Or.inr ?_
            cases l with
            | nil => exact absurd rfl hl1
            | cons b t => rw [List.getLast?_cons_cons]; exact h

lemma splitLines_cons (c : Char) (rest : List Char) :
    splitLines (c :: rest) =
      if c = '\n' then ['\n'] :: splitLines rest
      else match splitLines rest with
        | [] => [[c]]
        | l :: ls => (c :: l) :: ls := rfl

lemma splitLines_single : ∀ l : List Char, l ≠ [] → '\n' ∉ l.dropLast →
    splitLines l = [l]
  | [], h, _ => absurd rfl h
  | [c], _, _ => by
    unfold splitLines
    by_cases hc : c = '\n'
    · rw [if_pos hc, hc]
      rfl
    · rw [if_neg hc]
      rfl
  | c :: d :: t, _, hnl => by
    have hc : ¬ c = '\n' := by
      intro hx
      exact hnl (by rw [List.dropLast_cons₂, hx]; exact List.mem_cons_self _ _)
    have hnl' : '\n' ∉ (d :: t).dropLast := by
      intro hm
      exact hnl (by rw [List.dropLast_cons₂]; exact List.mem_cons_of_mem _ hm)
    show splitLines (c :: d :: t) = _
    unfold splitLines
    rw [if_neg hc, splitLines_single (d :: t) (by simp) hnl']

lemma splitLines_append_line : ∀ (l t : List Char), l ≠ [] →
    l.getLast? = some '\n' → '\n' ∉ l.dropLast →
    splitLines (l ++ t) = l :: splitLines t
  | [], _, h, _, _ => absurd rfl h
  | [c], t, _, hlast, _ => by
    have hc : c = '\n' := by simpa using hlast
    subst hc
    show splitLines ('\n' :: t) = _
    rw [splitLines_cons, if_pos rfl]
  | c :: d :: r, t, _, hlast, hnl => by
    have hc : ¬ c = '\n' := by
      intro hx
      exact hnl (by rw [List.dropLast_cons₂, hx]; exact List.mem_cons_self _ _)
    have hnl' : '\n' ∉ (d :: r).dropLast := by
      intro hm
      exact hnl (by rw [List.dropLast_cons₂]; exact List.mem_cons_of_mem _ hm)
    have hlast' : (d :: r).getLast? = some '\n' := by
      rw [← List.getLast?_cons_cons (a := c)]
      exact hlast
    show splitLines (c :: ((d :: r) ++ t)) = _
    rw [splitLines_cons, if_neg hc,
      splitLines_append_line (d :: r) t (by simp) hlast' hnl']

lemma splitLines_of_good : ∀ ls : List (List Char), goodLines ls →
    splitLines ls.flatten = ls
  | [], _ => rfl
  | l :: ls, h => by
    obtain ⟨h1, h2, h3, h4⟩ := h
    rcases h3 with h3 | h3
    · subst h3
      simp only [List.flatten_cons, List.flatten_nil, List.append_nil]
      exact splitLines_single l h1 h2
    · rw [List.flatten_cons, splitLines_append_line l ls.flatten h1 h3 h2,
        splitLines_of_good ls h4]

lemma removeInvalid_cons_of {c : Char} (hc : invalidChar c = false) (x : List Char) :
    removeInvalid (c :: x) = c :: removeInvalid x := by
  unfold removeInvalid
  rw [List.filter_cons, if_pos (by simp [hc])]

lemma replSpace_cons_of {c : Char} (hc : (c == ' ') = false) (x : List Char) :
    replSpace (c :: x) = c :: replSpace x := by
  unfold replSpace
  rw [List.map_cons]
  congr 1
  rw [if_neg (by simp_all)]

lemma sanitizeLine_header (t : List Char) :
    sanitizeLine ('>' :: t) =
      ('>' :: replSpace (removeInvalid (rdropWhileL isPyWS t))) ++ ['\n'] := by
  unfold sanitizeLine
  rw [if_pos (by simp), pyStrip_cons_gt, removeInvalid_cons_of (by decide),
    replSpace_cons_of (by decide)]

lemma goodLines_wf : ∀ ls : List (List Char), goodLines ls →
    ∀ l ∈ ls, '\n' ∉ l.dropLast
  | [], _, l, hl => by simp at hl
  | x :: ls, ⟨_, h2, _, h4⟩, l, hl => by
    rcases List.mem_cons.mp hl with hl | hl
    · rw [hl]
      exact h2
    · exact goodLines_wf ls h4 l hl

lemma sanitize_good : ∀ ls : List (List Char), goodLines ls →
    (∀ l ∈ ls, ∀ c ∈ l, isPyWS c = true → c = ' ' ∨ c = '\n') →
    goodLines (ls.map sanitizeLine)
  | [], _, _ => trivial
  | l :: ls, ⟨h1, h2, h3, h4⟩, hres => by
    have hresl := hres l (List.mem_cons_self _ _)
    have ih := sanitize_good ls h4 (fun x hx => hres x (List.mem_cons_of_mem _ hx))
    rw [List.map_cons]
    by_cases hh : (l.head? == some '>') = true
    · obtain ⟨t, rfl⟩ : ∃ t, l = '>' :: t := by
        cases l with
        | nil => simp at hh
        | cons a t =>
          have ha : a = '>' := by simpa using hh
          exact ⟨t, by rw [ha]⟩
      rw [sanitizeLine_header]
      refine ⟨by simp, ?_, ?_, ih⟩
      · rw [List.dropLast_concat]
        intro hm
        have hbody : '\n' ∈ replSpace (removeInvalid (pyStrip ('>' :: t))) := by
          rw [pyStrip_cons_gt, removeInvalid_cons_of (by decide),
            replSpace_cons_of (by decide)]
          rcases List.mem_cons.mp hm with hm | hm
          · exact absurd hm.symm (by decide)
          · exact List.mem_cons_of_mem _ hm
        have := body_no_ws h2 hresl '\n' hbody
        exact absurd this (by decide)
      · exact Or.inr (List.getLast?_concat _)
    · have heq : sanitizeLine l = l := by
        unfold sanitizeLine
        rw [if_neg hh]
      rw [heq]
      refine ⟨h1, h2, ?_, ih⟩
      rcases h3 with h3 | h3
      · exact Or.inl (by rw [h3]; rfl)
      · exact Or.inr h3

lemma sanitizeLine_idem {l : List Char} (hnl : '\n' ∉ l.dropLast)
    (hres : ∀ c ∈ l, isPyWS c = true → c = ' ' ∨ c = '\n') :
    sanitizeLine (sanitizeLine l) = sanitizeLine l := by
  by_cases hh : (l.head? == some '>') = true
  · obtain ⟨t, rfl⟩ : ∃ t, l = '>' :: t := by
      cases l with
      | nil => simp at hh
      | cons a t =>
        have ha : a = '>' := by simpa using hh
        exact ⟨t, by rw [ha]⟩
    rw [sanitizeLine_header]
    rw [show ('>' :: replSpace (removeInvalid (rdropWhileL isPyWS t))) ++ ['\n'] =
        '>' :: (replSpace (removeInvalid (rdropWhileL isPyWS t)) ++ ['\n']) from by simp]
    rw [sanitizeLine_header]
    have hmem : ∀ a ∈ replSpace (removeInvalid (rdropWhileL isPyWS t)),
        a ∈ replSpace (removeInvalid (pyStrip ('>' :: t))) := by
      intro a ha
      rw [pyStrip_cons_gt, removeInvalid_cons_of (by decide),
        replSpace_cons_of (by decide)]
      exact List.mem_cons_of_mem _ ha
    have h1 : rdropWhileL isPyWS
        (replSpace (removeInvalid (rdropWhileL isPyWS t)) ++ ['\n']) =
        replSpace (removeInvalid (rdropWhileL isPyWS t)) := by
      rw [rdropWhileL_concat_pos (by decide)]
      exact rdropWhileL_of_forall
        (fun a ha => body_no_ws hnl hres a (hmem a ha))
    rw [h1]
    have h2 : removeInvalid (replSpace (removeInvalid (rdropWhileL isPyWS t))) =
        replSpace (removeInvalid (rdropWhileL isPyWS t)) := by
      refine List.filter_eq_self.mpr ?_
      intro a ha
      simp [body_no_invalid _ a ha]
    rw [h2]
    have h3 : replSpace (replSpace (removeInvalid (rdropWhileL isPyWS t))) =
        replSpace (removeInvalid (rdropWhileL isPyWS t)) := by
      unfold replSpace
      rw [List.map_congr_left
        (fun a ha => by rw [if_neg (by simp [body_no_space _ a ha])])]
      exact List.map_id _
    rw [h3]
    rfl
  · have heq : sanitizeLine l = l := by
      unfold sanitizeLine
      rw [if_neg hh]
    rw [heq, heq]

/-- C4 amended: sanitization is idempotent on files whose whitespace is
only spaces and newlines; in general, deleting invalid characters can
expose trailing whitespace (such as a tab) in a header, which only the
second pass strips. -/
theorem c4_sanitize_idempotent_amended :
    ∀ s : List Char,
      (∀ c ∈ s, isPyWS c = true → c = ' ' ∨ c = '\n') →
      sanitizeFile (sanitizeFile s) = sanitizeFile s := by
  intro s hres
  have hgood : goodLines (splitLines s) := goodLines_splitLines s
  have hres' : ∀ l ∈ splitLines s, ∀ c ∈ l, isPyWS c = true → c = ' ' ∨ c = '\n' := by
    intro l hl c hc
    refine hres c ?_
    rw [← splitLines_flatten s]
    exact List.mem_flatten.mpr ⟨l, hl, hc⟩
  have hwf := goodLines_wf _ hgood
  unfold sanitizeFile
  rw [splitLines_of_good _ (sanitize_good _ hgood hres')]
  congr 1
  rw [List.map_map]
  refine List.map_congr_left ?_
  intro l hl
  exact sanitizeLine_idem (hwf l hl) (hres' l hl)

/-- Witness for C4's amended statement on a small tab-free FASTA file. -/
theorem c4_sanitize_idempotent_amended_witness :
    sanitizeFile (sanitizeFile (">seq 1,(x)|HA|\nACGT\n".toList)) =
      sanitizeFile (">seq 1,(x)|HA|\nACGT\n".toList) :=
  c4_sanitize_idempotent_amended _ (by decide)
